import Mathlib

/-!
Verification of the version management script `pyver.py`: a shallow
embedding of `.github/workflows/scripts/pyver.py`.

Conventions of the embedding:
* Python strings are Lean `String`s; where character-level reasoning is
  needed (the version parser) we work on `String.data : List Char`.
* A file's content is a `String`; Python's line iteration is modelled by
  `fileLines`, which yields the lines with their trailing newline removed
  (every use in the script immediately `strip()`s or is prefix-insensitive
  to the trailing newline, so this is behaviour-preserving).
* The file system is a partial map from paths to contents.
* Python exceptions become `Except` errors carrying the same data that the
  exception messages carry.
* Python `dict` (insertion-ordered, assignment to an existing key keeps its
  position) is modelled by an association list with `dictInsert`.
-/

namespace Pyver

/-! ## Character-level helpers (spec-modelled version parsing)

The script parses version tokens with the third-party `semantic_version`
library, which is not part of this repository.  Per §4.1 of the
specification the parser strips an optional leading `v`, splits on `.` into
exactly three segments and parses each segment as a non-negative integer.
-/

/-- Python `s.split(sep)` for a single-character separator, on `List Char`. -/
def splitChar (sep : Char) : List Char → List (List Char)
  | [] => [[]]
  | c :: rest =>
    if c = sep then [] :: splitChar sep rest
    else
      match splitChar sep rest with
      | [] => [[c]]
      | g :: gs => (c :: g) :: gs

/-- Numeric value of a decimal digit character. -/
def digitVal (c : Char) : Nat := c.toNat - 48

/-- A segment is numeric when it is nonempty and made of decimal digits. -/
def isNumericSegment (ds : List Char) : Bool :=
  !ds.isEmpty && ds.all Char.isDigit

/-- Modelled from the spec: parsing one dot-separated segment as a
non-negative integer (the `semantic_version` library is absent from the
repository). -/
def digitsToNat (ds : List Char) : Option Nat :=
  if isNumericSegment ds then
    some (ds.foldl (fun a c => a * 10 + digitVal c) 0)
  else none

/-- Strip a single leading `v` from a character list. -/
def stripVChars (s : List Char) : List Char :=
  match s with
  | [] => []
  | c :: rest => if c = 'v' then rest else c :: rest

/-- Modelled from the spec (§4.1), character level: strip an optional
leading `v`, split on `.` into exactly three segments, parse each as a
non-negative integer.  Returns `none` (the library's `ValueError`) on any
malformed token.  Components are `Int` because Python integers are signed
and unbounded. -/
def parseVersionChars (l : List Char) : Option (Int × Int × Int) :=
  match splitChar '.' (stripVChars l) with
  | [a, b, c] =>
    match digitsToNat a, digitsToNat b, digitsToNat c with
    | some major, some minor, some patch =>
      some ((major : Int), (minor : Int), (patch : Int))
    | _, _, _ => none
  | _ => none

/-- Modelled from the spec (§4.1): the version parser on `String`s. -/
def parse_version (s : String) : Option (Int × Int × Int) :=
  parseVersionChars s.data

/-- Decimal digit characters of `n`, most significant first, prepended to
`acc`; structural recursion on a fuel argument so that the kernel can
evaluate it (any `fuel` with `n < 10 ^ fuel` yields all the digits). -/
def natToCharsGo : Nat → Nat → List Char → List Char
  | 0, _, acc => acc
  | fuel + 1, n, acc =>
    if n < 10 then Char.ofNat (48 + n) :: acc
    else natToCharsGo fuel (n / 10) (Char.ofNat (48 + n % 10) :: acc)

/-- Decimal representation of a natural number (Python `str` on a
non-negative `int`). -/
def natToChars (n : Nat) : List Char := natToCharsGo (n + 1) n []

/-- Python `str` on an `int` (a minus sign followed by the digits when
negative). -/
def intToChars (i : Int) : List Char :=
  if i < 0 then '-' :: natToChars (-i).toNat else natToChars i.toNat

/-- The f-string `f"{major}.{minor}.{patch}"` used by the script to render a
version triple. -/
def format_version (v : Int × Int × Int) : String :=
  String.mk (intToChars v.1 ++ '.' :: (intToChars v.2.1 ++ '.' :: intToChars v.2.2))

/-! ## Increment policies (`increment_version`) -/

/-- Modelled from the spec (§4.2, `semantic_version.Version.next_major` on a
prerelease-free version): `(major+1, 0, 0)`. -/
def next_major (v : Int × Int × Int) : Int × Int × Int := (v.1 + 1, 0, 0)

/-- Modelled from the spec (§4.2, `semantic_version.Version.next_minor` on a
prerelease-free version): `(major, minor+1, 0)`. -/
def next_minor (v : Int × Int × Int) : Int × Int × Int := (v.1, v.2.1 + 1, 0)

/-- The `patch` branch of `increment_version`: `patch += 1`; `if patch > 10:
patch = 0; minor += 1`; `if minor > 10: minor = 0; major += 1`. -/
def increment_patch (v : Int × Int × Int) : Int × Int × Int :=
  let major := v.1
  let minor := v.2.1
  let patch := v.2.2 + 1
  let mp := if patch > 10 then (minor + 1, (0 : Int)) else (minor, patch)
  let mm := if mp.1 > 10 then (major + 1, (0 : Int)) else (major, mp.1)
  (mm.1, mm.2, mp.2)

/-- The `auto` branch of `increment_version`: same as `patch` but both
rollover tests use `>= 10`. -/
def increment_auto (v : Int × Int × Int) : Int × Int × Int :=
  let major := v.1
  let minor := v.2.1
  let patch := v.2.2 + 1
  let mp := if patch ≥ 10 then (minor + 1, (0 : Int)) else (minor, patch)
  let mm := if mp.1 ≥ 10 then (major + 1, (0 : Int)) else (major, mp.1)
  (mm.1, mm.2, mp.2)

/-- Dispatch of `increment_version` on the already-parsed triple: the four
policy branches, `none` for an invalid `version_type`. -/
def increment_triple (v : Int × Int × Int) (version_type : String) :
    Option (Int × Int × Int) :=
  if version_type = "major" then some (next_major v)
  else if version_type = "minor" then some (next_minor v)
  else if version_type = "patch" then some (increment_patch v)
  else if version_type = "auto" then some (increment_auto v)
  else none

/-- Errors raised by the script, carrying the data its messages carry. -/
inductive MainErr where
  | invalidVersionType (offending : String) (allowed : List String)
  | invalidEnvironment (offending : String) (allowed : List String)
  | unknownEnvPath (environment : String)
  | fileNotFound (path : String)
  | missingServiceVersion (path : String)
  | parseError (version : String)
  | invalidIncrementType (t : String)
deriving DecidableEq, Repr

/-- `increment_version(current_version, version_type)`: parse the version
(`semantic_version.Version` raises on a malformed token before the policy
branch is examined), then apply the policy branch; an unknown policy raises
`ValueError`. -/
def increment_version (current_version version_type : String) :
    Except MainErr String :=
  match parse_version current_version with
  | none => .error (.parseError current_version)
  | some v =>
    match increment_triple v version_type with
    | some w => .ok (format_version w)
    | none => .error (.invalidIncrementType version_type)

/-! ## Python string primitives

Lean's own `String.splitOn`, `String.trim`, … are defined by well-founded
recursion on byte positions and do not reduce inside the kernel, so the
Python string operations the script uses are implemented structurally on
`String.data`. -/

/-- Python `s.startswith(p)`. -/
def startsWithChars : List Char → List Char → Bool
  | [], _ => true
  | _ :: _, [] => false
  | p :: ps, c :: cs => p = c && startsWithChars ps cs

/-- Python `s.startswith(p)` on `String`s. -/
def pyStartsWith (s p : String) : Bool := startsWithChars p.data s.data

/-- Python `s.split(sep)` on `String`s, single-character separator. -/
def pySplitOn (sep : Char) (s : String) : List String :=
  (splitChar sep s.data).map String.mk

/-- Drop leading whitespace (one side of Python `s.strip()`). -/
def trimLeftChars (l : List Char) : List Char := l.dropWhile Char.isWhitespace

/-- Python `s.strip()`: drop whitespace from both ends. -/
def pyTrim (s : String) : String :=
  String.mk ((trimLeftChars ((trimLeftChars s.data).reverse)).reverse)

/-- Python `c in s` for a single character. -/
def pyContains (s : String) (c : Char) : Bool := s.data.any (fun x => x = c)

/-- Join character lists with a single-character separator (used to model
Python `split(sep, 1)`: everything after the first separator). -/
def joinSepChar (sep : Char) : List (List Char) → List Char
  | [] => []
  | [x] => x
  | x :: xs => x ++ sep :: joinSepChar sep xs

/-! ## Environment file store -/

/-- A file system: a partial map from paths to file contents. -/
abbrev FileSystem := String → Option String

/-- Python's line iteration over a file's content; each line is returned
with its trailing newline removed (every consumer in the script either
`strip()`s the relevant part or only inspects a newline-free prefix). -/
def fileLines (content : String) : List String :=
  let parts := splitChar '\n' content.data
  (if parts.getLast? = some [] then parts.dropLast else parts).map String.mk

/-- `get_env_file_path(environment, base_path)`: the dictionary lookup
`env_files.get(environment)` (`none` for an unknown environment). -/
def get_env_file_path (environment base_path : String) : Option String :=
  if environment = "dev" then some (base_path ++ "/.env.dev")
  else if environment = "stg" then some (base_path ++ "/.env.stg")
  else if environment = "uat" then some (base_path ++ "/.env.uat")
  else if environment = "prod" then some (base_path ++ "/.env.prod")
  else none

/-- The two lines of `read_current_version` that strip a leading `v`:
`if version.startswith('v'): version = version[1:]`. -/
def strip_v (version : String) : String := String.mk (stripVChars version.data)

/-- The scan loop of `read_current_version`: the first line starting with
`service_version=` yields `line.split('=')[1].strip()` with a leading `v`
stripped (the index-1 access cannot fail inside the branch, so the `getD`
default is never used there); `none` when no line matches. -/
def find_service_version : List String → Option String
  | [] => none
  | line :: rest =>
    if pyStartsWith line "service_version=" then
      some (strip_v (pyTrim ((pySplitOn '=' line).getD 1 "")))
    else find_service_version rest

/-- `read_current_version(env_file_path)`: `FileNotFoundError` when the file
is absent, `ValueError` (missing key) when no `service_version=` line
exists. -/
def read_current_version (fs : FileSystem) (env_file_path : String) :
    Except MainErr String :=
  match fs env_file_path with
  | none => .error (.fileNotFound env_file_path)
  | some content =>
    match find_service_version (fileLines content) with
    | some version => .ok version
    | none => .error (.missingServiceVersion env_file_path)

/-- Python `line.split('=', 1)`: the part before the first `=` and
everything after it (`=` signs inside the value are preserved). -/
def split_first_eq (line : String) : String × String :=
  match pySplitOn '=' line with
  | [] => (line, "")
  | k :: rest => (k, String.mk (joinSepChar '=' (rest.map String.data)))

/-- The guard-and-parse of one line in `update_env_file`'s read loop:
lines containing `=` and not starting with `#` yield their trimmed
key and trimmed value; all other lines yield nothing. -/
def parse_env_line (line : String) : Option (String × String) :=
  if pyContains line '=' && !(pyStartsWith line "#") then
    some (pyTrim (split_first_eq line).1, pyTrim (split_first_eq line).2)
  else none

/-- Insertion-ordered `dict` assignment `d[k] = v`: an existing key keeps
its position and gets the new value, a new key is appended. -/
def dictInsert (d : List (String × String)) (k v : String) :
    List (String × String) :=
  if k ∈ d.map Prod.fst then
    d.map (fun kv => if kv.1 = k then (k, v) else kv)
  else d ++ [(k, v)]

/-- One iteration of `update_env_file`'s read loop. -/
def env_step (acc : List (String × String)) (line : String) :
    List (String × String) :=
  match parse_env_line line with
  | some kv => dictInsert acc kv.1 kv.2
  | none => acc

/-- The read loop of `update_env_file`: fold every line into the
insertion-ordered mapping `existing_content`. -/
def read_env_pairs (ls : List String) : List (String × String) :=
  ls.foldl env_step []

/-- The rewrite performed by `update_env_file` on the file's lines: build
the mapping, assign `service_version = 'v' + new_version`, render every
entry as `key=value`. -/
def update_env_lines (ls : List String) (new_version : String) : List String :=
  let updated := dictInsert (read_env_pairs ls) "service_version" ("v" ++ new_version)
  updated.map (fun kv => kv.1 ++ "=" ++ kv.2)

/-- `update_env_file(env_file_path, new_version)`: `FileNotFoundError` when
the file is absent; otherwise overwrite the file with the rewritten lines,
each terminated by a newline. -/
def update_env_file (fs : FileSystem) (env_file_path new_version : String) :
    Except MainErr FileSystem :=
  match fs env_file_path with
  | none => .error (.fileNotFound env_file_path)
  | some content =>
    let newLines := update_env_lines (fileLines content) new_version
    let newContent := String.join (newLines.map (fun l => l ++ "\n"))
    .ok (fun p => if p = env_file_path then some newContent else fs p)

/-! ## Orchestrator -/

/-- The allowed `version_type` values of `validate_inputs`. -/
def valid_version_types : List String := ["patch", "minor", "major", "auto"]

/-- The allowed `environment` values of `validate_inputs`. -/
def valid_environments : List String := ["dev", "stg", "uat", "prod"]

/-- `validate_inputs(version_type, environment)`: the version type is
checked first, then the environment; each failure carries the offending
value and the allowed list, as the raised `ValueError` messages do. -/
def validate_inputs (version_type environment : String) : Except MainErr Unit :=
  if version_type ∈ valid_version_types then
    if environment ∈ valid_environments then .ok ()
    else .error (.invalidEnvironment environment valid_environments)
  else .error (.invalidVersionType version_type valid_version_types)

/-- The `try` block of `main` after argument parsing: validate, resolve the
path, read, increment, write.  Returns the (possibly updated) file system
together with either the `(current_version, new_version)` pair of a
successful run or the raised error; every error path leaves the file
system untouched, exactly as the script (its only write happens inside
`update_env_file` after all earlier stages succeeded). -/
def main_run (version_type environment base_path : String) (fs : FileSystem) :
    FileSystem × Except MainErr (String × String) :=
  match validate_inputs version_type environment with
  | .error e => (fs, .error e)
  | .ok _ =>
    match get_env_file_path environment base_path with
    | none => (fs, .error (.unknownEnvPath environment))
    | some env_file_path =>
      match read_current_version fs env_file_path with
      | .error e => (fs, .error e)
      | .ok current_version =>
        match increment_version current_version version_type with
        | .error e => (fs, .error e)
        | .ok new_version =>
          match update_env_file fs env_file_path new_version with
          | .error e => (fs, .error e)
          | .ok fs2 => (fs2, .ok (current_version, new_version))

/-! ## Claim-side reference definitions

These follow the wording of the specification's claims and are compared
against the definitions embedded from the source. -/

/-- The `patch` policy as worded by the claim: add 1 to patch; if the
resulting patch is strictly greater than 10, reset patch to 0 and add 1 to
minor; if the resulting minor is then strictly greater than 10, reset minor
to 0 and add 1 to major, both rollovers applied in that order within the
single call. -/
def patchPolicySpec (M m p : Int) : Int × Int × Int :=
  let p1 := p + 1
  let p2 := if p1 > 10 then 0 else p1
  let m1 := if p1 > 10 then m + 1 else m
  let m2 := if m1 > 10 then 0 else m1
  let M1 := if m1 > 10 then M + 1 else M
  (M1, m2, p2)

/-- The `auto` policy as worded by the claim: the same
increment-then-cascading-rollover scheme as `patch`, but each rollover is
tested with `>= 10` instead of `> 10`. -/
def autoPolicySpec (M m p : Int) : Int × Int × Int :=
  let p1 := p + 1
  let p2 := if p1 ≥ 10 then 0 else p1
  let m1 := if p1 ≥ 10 then m + 1 else m
  let m2 := if m1 ≥ 10 then 0 else m1
  let M1 := if m1 ≥ 10 then M + 1 else M
  (M1, m2, p2)

end Pyver

deriving instance DecidableEq for Except

namespace Pyver

/-! ## Helper lemmas: policy dispatch and rollover arithmetic -/

lemma increment_triple_major (v : Int × Int × Int) :
    increment_triple v "major" = some (next_major v) := rfl

lemma increment_triple_minor (v : Int × Int × Int) :
    increment_triple v "minor" = some (next_minor v) := rfl

lemma increment_triple_patch (v : Int × Int × Int) :
    increment_triple v "patch" = some (increment_patch v) := rfl

lemma increment_triple_auto (v : Int × Int × Int) :
    increment_triple v "auto" = some (increment_auto v) := rfl

lemma increment_patch_nonneg (M m p : Int) (hM : 0 ≤ M) (hm : 0 ≤ m)
    (hp : 0 ≤ p) :
    0 ≤ (increment_patch (M, m, p)).1 ∧ 0 ≤ (increment_patch (M, m, p)).2.1 ∧
      0 ≤ (increment_patch (M, m, p)).2.2 := by
  unfold increment_patch
  by_cases h1 : (10 : Int) < p + 1 <;> by_cases h2 : (10 : Int) < m + 1 <;>
    by_cases h3 : (10 : Int) < m <;> simp [h1, h2, h3] <;> omega

lemma increment_auto_nonneg (M m p : Int) (hM : 0 ≤ M) (hm : 0 ≤ m)
    (hp : 0 ≤ p) :
    0 ≤ (increment_auto (M, m, p)).1 ∧ 0 ≤ (increment_auto (M, m, p)).2.1 ∧
      0 ≤ (increment_auto (M, m, p)).2.2 := by
  unfold increment_auto
  by_cases h1 : (10 : Int) ≤ p + 1 <;> by_cases h2 : (10 : Int) ≤ m + 1 <;>
    by_cases h3 : (10 : Int) ≤ m <;> simp [h1, h2, h3] <;> omega

lemma increment_patch_patch_le (M m p : Int) :
    (increment_patch (M, m, p)).2.2 ≤ 10 := by
  unfold increment_patch
  by_cases h1 : (10 : Int) < p + 1 <;> by_cases h2 : (10 : Int) < m + 1 <;>
    by_cases h3 : (10 : Int) < m <;> simp [h1, h2, h3] <;> omega

lemma increment_auto_patch_le (M m p : Int) :
    (increment_auto (M, m, p)).2.2 ≤ 9 := by
  unfold increment_auto
  by_cases h1 : (10 : Int) ≤ p + 1 <;> by_cases h2 : (10 : Int) ≤ m + 1 <;>
    by_cases h3 : (10 : Int) ≤ m <;> simp [h1, h2, h3] <;> omega

/-! ## Claim C2 -/

/-- C2: under policy `patch`, `increment_version` adds 1 to patch, rolls
patch over into minor on `> 10`, then rolls minor over into major on
`> 10`, both rollovers within the single call; `10.10.10` becomes `11.0.0`
and `(1,10,10)` becomes `(2,0,0)`. -/
theorem claim_c2_patch_policy :
    (∀ M m p : Int, 0 ≤ M → 0 ≤ m → 0 ≤ p →
      increment_triple (M, m, p) "patch" = some (patchPolicySpec M m p)) ∧
    increment_triple (10, 10, 10) "patch" = some (11, 0, 0) ∧
    increment_triple (1, 10, 10) "patch" = some (2, 0, 0) := by
  refine ⟨?_, by decide, by decide⟩
  intro M m p _ _ _
  rw [increment_triple_patch]
  unfold increment_patch patchPolicySpec
  by_cases h1 : (10 : Int) < p + 1 <;> by_cases h2 : (10 : Int) < m + 1 <;>
    by_cases h3 : (10 : Int) < m <;> simp [h1, h2, h3]

/-- Witness for C2 at the concrete triple `(1, 2, 3)`. -/
theorem claim_c2_patch_policy_witness :
    increment_triple (1, 2, 3) "patch" = some (patchPolicySpec 1 2 3) :=
  claim_c2_patch_policy.1 1 2 3 (by decide) (by decide) (by decide)

/-! ## Claim C3 -/

/-- C3: policy `auto` applies the same scheme as `patch` with `>= 10`
rollover tests; `increment((1,0,9), auto) = (1,1,0)`; the two policies
differ on some input. -/
theorem claim_c3_auto_policy :
    (∀ M m p : Int, 0 ≤ M → 0 ≤ m → 0 ≤ p →
      increment_triple (M, m, p) "auto" = some (autoPolicySpec M m p)) ∧
    increment_triple (1, 0, 9) "auto" = some (1, 1, 0) ∧
    increment_triple (1, 0, 9) "patch" ≠ increment_triple (1, 0, 9) "auto" := by
  refine ⟨?_, by decide, by decide⟩
  intro M m p _ _ _
  rw [increment_triple_auto]
  unfold increment_auto autoPolicySpec
  by_cases h1 : (10 : Int) ≤ p + 1 <;> by_cases h2 : (10 : Int) ≤ m + 1 <;>
    by_cases h3 : (10 : Int) ≤ m <;> simp [h1, h2, h3]

/-- Witness for C3 at the concrete triple `(1, 2, 3)`. -/
theorem claim_c3_auto_policy_witness :
    increment_triple (1, 2, 3) "auto" = some (autoPolicySpec 1 2 3) :=
  claim_c3_auto_policy.1 1 2 3 (by decide) (by decide) (by decide)

/-! ## Claim C10 -/

/-- C10: for non-negative inputs and every valid policy the result has
non-negative components; under `patch` the returned patch component is at
most 10 and under `auto` at most 9, for every input patch component. -/
theorem claim_c10_component_bounds :
    (∀ M m p : Int, ∀ t ∈ valid_version_types, 0 ≤ M → 0 ≤ m → 0 ≤ p →
      ∀ w, increment_triple (M, m, p) t = some w →
        0 ≤ w.1 ∧ 0 ≤ w.2.1 ∧ 0 ≤ w.2.2) ∧
    (∀ M m p : Int, ∀ w, increment_triple (M, m, p) "patch" = some w →
      w.2.2 ≤ 10) ∧
    (∀ M m p : Int, ∀ w, increment_triple (M, m, p) "auto" = some w →
      w.2.2 ≤ 9) := by
  refine ⟨?_, ?_, ?_⟩
  · intro M m p t ht hM hm hp w hw
    simp only [valid_version_types, List.mem_cons, List.not_mem_nil,
      or_false] at ht
    rcases ht with rfl | rfl | rfl | rfl
    · rw [increment_triple_patch] at hw
      obtain rfl := Option.some.inj hw
      exact increment_patch_nonneg M m p hM hm hp
    · rw [increment_triple_minor] at hw
      obtain rfl := Option.some.inj hw
      refine ⟨hM, by simp [next_minor]; omega, by simp [next_minor]⟩
    · rw [increment_triple_major] at hw
      obtain rfl := Option.some.inj hw
      refine ⟨by simp [next_major]; omega, by simp [next_major], by simp [next_major]⟩
    · rw [increment_triple_auto] at hw
      obtain rfl := Option.some.inj hw
      exact increment_auto_nonneg M m p hM hm hp
  · intro M m p w hw
    rw [increment_triple_patch] at hw
    obtain rfl := Option.some.inj hw
    exact increment_patch_patch_le M m p
  · intro M m p w hw
    rw [increment_triple_auto] at hw
    obtain rfl := Option.some.inj hw
    exact increment_auto_patch_le M m p

/-- Witness for C10 at `(1, 2, 3)` under `patch`. -/
theorem claim_c10_component_bounds_witness :
    (0 ≤ ((1 : Int), (2 : Int), (4 : Int)).1 ∧
      0 ≤ ((1 : Int), (2 : Int), (4 : Int)).2.1 ∧
      0 ≤ ((1 : Int), (2 : Int), (4 : Int)).2.2) ∧
    ((1 : Int), (2 : Int), (4 : Int)).2.2 ≤ 10 :=
  ⟨claim_c10_component_bounds.1 1 2 3 "patch" (by decide) (by decide)
      (by decide) (by decide) (1, 2, 4) (by decide),
    claim_c10_component_bounds.2.1 1 2 3 (1, 2, 4) (by decide)⟩

/-! ## Claim C8 -/

/-- C8: `get_env_file_path` maps each of the four environments to
`{base_path}/.env.{env}` and yields no path (the script's failure case,
surfaced by the orchestrator as an error) for any other environment. -/
theorem claim_c8_env_paths :
    (∀ bp : String,
      get_env_file_path "dev" bp = some (bp ++ "/.env.dev") ∧
      get_env_file_path "stg" bp = some (bp ++ "/.env.stg") ∧
      get_env_file_path "uat" bp = some (bp ++ "/.env.uat") ∧
      get_env_file_path "prod" bp = some (bp ++ "/.env.prod")) ∧
    (∀ env bp : String, env ∉ valid_environments →
      get_env_file_path env bp = none) := by
  constructor
  · intro bp
    exact ⟨rfl, rfl, rfl, rfl⟩
  · intro env bp h
    simp only [valid_environments, List.mem_cons, List.not_mem_nil, or_false,
      not_or] at h
    obtain ⟨h1, h2, h3, h4⟩ := h
    simp [get_env_file_path, h1, h2, h3, h4]

/-- Witness for C8: the unknown environment `qa` resolves to no path. -/
theorem claim_c8_env_paths_witness :
    get_env_file_path "qa" "/base" = none :=
  claim_c8_env_paths.2 "qa" "/base" (by decide)

/-! ## Claim C6 -/

/-- C6: the orchestrator rejects an invalid policy, then an invalid
environment, each with an error naming the offending value and the allowed
set, leaving the file system untouched (the result does not depend on the
file system at all); with valid inputs but an empty file system it fails
with a file-not-found error and creates no file. -/
theorem claim_c6_validation :
    (∀ vt env bp : String, ∀ fs : FileSystem, vt ∉ valid_version_types →
      main_run vt env bp fs =
        (fs, .error (.invalidVersionType vt valid_version_types))) ∧
    (∀ vt env bp : String, ∀ fs : FileSystem, vt ∈ valid_version_types →
      env ∉ valid_environments →
      main_run vt env bp fs =
        (fs, .error (.invalidEnvironment env valid_environments))) ∧
    (∀ vt env bp : String, ∀ fs : FileSystem, vt ∈ valid_version_types →
      env ∈ valid_environments → (∀ q, fs q = none) →
      ∃ path, main_run vt env bp fs = (fs, .error (.fileNotFound path))) := by
  refine ⟨?_, ?_, ?_⟩
  · intro vt env bp fs h
    simp [main_run, validate_inputs, h]
  · intro vt env bp fs hvt henv
    simp [main_run, validate_inputs, hvt, henv]
  · intro vt env bp fs hvt henv hfs
    simp only [valid_environments, List.mem_cons, List.not_mem_nil,
      or_false] at henv
    rcases henv with rfl | rfl | rfl | rfl
    · exact ⟨bp ++ "/.env.dev", by
        simp [main_run, validate_inputs, hvt, valid_environments,
          get_env_file_path, read_current_version, hfs]⟩
    · exact ⟨bp ++ "/.env.stg", by
        simp [main_run, validate_inputs, hvt, valid_environments,
          get_env_file_path, read_current_version, hfs]⟩
    · exact ⟨bp ++ "/.env.uat", by
        simp [main_run, validate_inputs, hvt, valid_environments,
          get_env_file_path, read_current_version, hfs]⟩
    · exact ⟨bp ++ "/.env.prod", by
        simp [main_run, validate_inputs, hvt, valid_environments,
          get_env_file_path, read_current_version, hfs]⟩

/-- Witness for C6: the invalid policy `bogus`, the invalid environment
`qa`, and a run against an empty file system. -/
theorem claim_c6_validation_witness :
    (main_run "bogus" "dev" "/app" (fun _ => none) =
      ((fun _ => none : FileSystem),
        .error (.invalidVersionType "bogus" valid_version_types))) ∧
    (main_run "patch" "qa" "/app" (fun _ => none) =
      ((fun _ => none : FileSystem),
        .error (.invalidEnvironment "qa" valid_environments))) ∧
    (∃ path, main_run "patch" "dev" "/nowhere" (fun _ => none) =
      ((fun _ => none : FileSystem), .error (.fileNotFound path))) :=
  ⟨claim_c6_validation.1 "bogus" "dev" "/app" (fun _ => none) (by decide),
    claim_c6_validation.2.1 "patch" "qa" "/app" (fun _ => none) (by decide)
      (by decide),
    claim_c6_validation.2.2 "patch" "dev" "/nowhere" (fun _ => none)
      (by decide) (by decide) (fun _ => rfl)⟩

/-! ## Claim C4 -/

/-- Counterexample to C4 as stated: on the line `service_version=a=b` the
script extracts `a` (the field between the first and the second `=`), not
the substring after the first `=`, which would be `a=b`. -/
theorem claim_c4_read_version_counterexample :
    find_service_version ["service_version=a=b"] = some "a" ∧
    ("a" : String) ≠ "a=b" := by decide

/-- C4 (amended): `read_current_version` returns, for the first line
beginning with `service_version=`, the field between the first and second
`=` (index 1 of splitting the line on `=`), trimmed and with a single
leading `v` stripped; later matching lines are ignored; with no matching
line it fails with the missing-key error. -/
theorem claim_c4_read_version :
    (∀ (pre post : List String) (line : String),
      (∀ l ∈ pre, pyStartsWith l "service_version=" = false) →
      pyStartsWith line "service_version=" = true →
      find_service_version (pre ++ line :: post) =
        some (strip_v (pyTrim ((pySplitOn '=' line).getD 1 "")))) ∧
    (∀ ls : List String,
      (∀ l ∈ ls, pyStartsWith l "service_version=" = false) →
      find_service_version ls = none) ∧
    (∀ fs : FileSystem, ∀ path content : String, fs path = some content →
      (∀ l ∈ fileLines content, pyStartsWith l "service_version=" = false) →
      read_current_version fs path = .error (.missingServiceVersion path)) := by
  have hnone : ∀ ls : List String,
      (∀ l ∈ ls, pyStartsWith l "service_version=" = false) →
      find_service_version ls = none := by
    intro ls
    induction ls with
    | nil => intro _; rfl
    | cons l t ih =>
      intro h
      have hl : pyStartsWith l "service_version=" = false :=
        h l (List.mem_cons_self l t)
      simp only [find_service_version, hl, Bool.false_eq_true, if_false]
      exact ih (fun x hx => h x (List.mem_cons_of_mem _ hx))
  refine ⟨?_, hnone, ?_⟩
  · intro pre post line hpre hline
    induction pre with
    | nil => simp [find_service_version, hline]
    | cons l t ih =>
      have hl : pyStartsWith l "service_version=" = false :=
        hpre l (List.mem_cons_self l t)
      simp only [List.cons_append, find_service_version, hl,
        Bool.false_eq_true, if_false]
      exact ih (fun x hx => hpre x (List.mem_cons_of_mem _ hx))
  · intro fs path content h1 h2
    simp [read_current_version, h1, hnone _ h2]

/-- Witness for C4: the first of two `service_version=` lines wins and its
value is trimmed and `v`-stripped. -/
theorem claim_c4_read_version_witness :
    find_service_version
      ["foo=1", "service_version=v1.2.3", "service_version=v9.9.9"] =
      some "1.2.3" := by
  have h := claim_c4_read_version.1 ["foo=1"] ["service_version=v9.9.9"]
    "service_version=v1.2.3" (by decide) (by decide)
  exact h.trans (by decide)

/-! ## Claim C7 -/

lemma digitsToNat_isSome (ds : List Char) :
    (digitsToNat ds).isSome = isNumericSegment ds := by
  unfold digitsToNat
  by_cases h : isNumericSegment ds = true <;> simp [h]

/-- C7 (spec-modelled parser): a token is accepted exactly when, after
stripping an optional leading `v`, it splits on `.` into exactly three
segments, each a nonempty run of decimal digits (a non-negative integer). -/
theorem claim_c7_parser_domain :
    ∀ s : String, (parse_version s).isSome = true ↔
      ∃ a b c : List Char, splitChar '.' (stripVChars s.data) = [a, b, c] ∧
        isNumericSegment a = true ∧ isNumericSegment b = true ∧
        isNumericSegment c = true := by
  intro s
  cases h : splitChar '.' (stripVChars s.data) with
  | nil => simp [parse_version, parseVersionChars, h]
  | cons a t =>
    cases t with
    | nil => simp [parse_version, parseVersionChars, h]
    | cons b t2 =>
      cases t2 with
      | nil => simp [parse_version, parseVersionChars, h]
      | cons c t3 =>
        cases t3 with
        | cons d t4 => simp [parse_version, parseVersionChars, h]
        | nil =>
          simp only [parse_version, parseVersionChars, h]
          constructor
          · intro hp
            cases hA : digitsToNat a with
            | none => simp [hA] at hp
            | some x =>
              cases hB : digitsToNat b with
              | none => simp [hA, hB] at hp
              | some y =>
                cases hC : digitsToNat c with
                | none => simp [hA, hB, hC] at hp
                | some z =>
                  refine ⟨a, b, c, rfl, ?_, ?_, ?_⟩
                  · rw [← digitsToNat_isSome, hA]; rfl
                  · rw [← digitsToNat_isSome, hB]; rfl
                  · rw [← digitsToNat_isSome, hC]; rfl
          · rintro ⟨a2, b2, c2, heq, h1, h2, h3⟩
            obtain ⟨rfl, rfl, rfl⟩ : a = a2 ∧ b = b2 ∧ c = c2 := by
              simpa using heq
            simp [digitsToNat, h1, h2, h3]

/-- Witness for C7: `v1.2.3` is accepted. -/
theorem claim_c7_parser_domain_witness :
    (parse_version "v1.2.3").isSome = true :=
  (claim_c7_parser_domain "v1.2.3").mpr
    ⟨['1'], ['2'], ['3'], by decide, by decide, by decide, by decide⟩

/-! ## Claim C1 -/

/-- Counterexample to C1 as stated: on a file containing
`service_version=v0.9.10\nfoo=bar\n`, policy `patch` does not produce
`service_version=v1.0.0\nfoo=bar\n` (patch rollover leaves minor at 10
because the `patch` threshold is strict). -/
theorem claim_c1_end_to_end_counterexample :
    (main_run "patch" "dev" "/app"
        (fun p => if p = "/app/.env.dev"
          then some "service_version=v0.9.10\nfoo=bar\n" else none)).1
      "/app/.env.dev" ≠ some "service_version=v1.0.0\nfoo=bar\n" := by decide

/-- C1 (amended): the same run rewrites the file to
`service_version=v0.10.0\nfoo=bar\n`, with `foo` preserved after
`service_version` as in the original file; the claimed `v1.0.0` is what
policy `auto` produces on this file. -/
theorem claim_c1_end_to_end :
    (main_run "patch" "dev" "/app"
        (fun p => if p = "/app/.env.dev"
          then some "service_version=v0.9.10\nfoo=bar\n" else none)).1
      "/app/.env.dev" = some "service_version=v0.10.0\nfoo=bar\n" ∧
    (main_run "auto" "dev" "/app"
        (fun p => if p = "/app/.env.dev"
          then some "service_version=v0.9.10\nfoo=bar\n" else none)).1
      "/app/.env.dev" = some "service_version=v1.0.0\nfoo=bar\n" := by decide

/-! ## Claim C5 -/

lemma dictInsert_of_not_mem (d : List (String × String)) (k v : String)
    (h : k ∉ d.map Prod.fst) : dictInsert d k v = d ++ [(k, v)] := by
  simp [dictInsert, h]

lemma dictInsert_mem_of_ne (d : List (String × String)) (k v k2 v2 : String)
    (hmem : (k, v) ∈ d) (hne : k ≠ k2) : (k, v) ∈ dictInsert d k2 v2 := by
  unfold dictInsert
  by_cases h : k2 ∈ d.map Prod.fst
  · simp only [h, if_pos]
    have hm := List.mem_map_of_mem
      (fun kv => if kv.1 = k2 then (k2, v2) else kv) hmem
    simpa [hne] using hm
  · simp only [h, if_neg, not_false_iff]
    exact List.mem_append_left _ hmem

lemma foldl_env_step : ∀ (ls : List String) (acc : List (String × String)),
    ((acc ++ ls.filterMap parse_env_line).map Prod.fst).Nodup →
    ls.foldl env_step acc = acc ++ ls.filterMap parse_env_line := by
  intro ls
  induction ls with
  | nil => intro acc _; simp
  | cons line t ih =>
    intro acc h
    cases hl : parse_env_line line with
    | none =>
      simp only [List.filterMap_cons, hl] at h ⊢
      simp only [List.foldl_cons, env_step, hl]
      exact ih acc h
    | some kv =>
      obtain ⟨k2, v2⟩ := kv
      simp only [List.filterMap_cons, hl] at h ⊢
      simp only [List.foldl_cons, env_step, hl]
      have hk : k2 ∉ acc.map Prod.fst := by
        intro hmem
        rw [List.map_append] at h
        have hd := (List.nodup_append.mp h).2.2
        exact hd hmem (by simp)
      rw [dictInsert_of_not_mem _ _ _ hk]
      rw [List.append_cons] at h
      rw [ih (acc ++ [(k2, v2)]) h]
      simp

lemma read_env_pairs_eq_filterMap (ls : List String)
    (h : ((ls.filterMap parse_env_line).map Prod.fst).Nodup) :
    read_env_pairs ls = ls.filterMap parse_env_line := by
  unfold read_env_pairs
  simpa using foldl_env_step ls [] (by simpa using h)

/-- Counterexample to C5 as stated: in a file with the duplicate-key lines
`a=1` and `a=2`, the non-comment `=`-line `a=1` contributes the pair
`(a, 1)`, yet after the rewrite that pair is gone (the dict keeps only the
last value of a duplicated key), so not every such pair is preserved. -/
theorem claim_c5_update_counterexample :
    parse_env_line "a=1" = some ("a", "1") ∧
    "a" ++ "=" ++ "1" ∉ update_env_lines ["a=1", "a=2"] "1.0.0" := by decide

/-- C5 (amended): for files whose non-comment `=`-lines have pairwise
distinct (trimmed) keys, the rewrite keeps exactly those lines' trimmed
key/value pairs in original order, drops comment, blank and `=`-free lines,
sets `service_version` to `v{new}` in place (or appends it), and every pair
with a key other than `service_version` reappears unchanged as `key=value`. -/
theorem claim_c5_update_preserves :
    (∀ (ls : List String) (nv : String),
      ((ls.filterMap parse_env_line).map Prod.fst).Nodup →
      update_env_lines ls nv =
        (dictInsert (ls.filterMap parse_env_line) "service_version"
          ("v" ++ nv)).map (fun kv => kv.1 ++ "=" ++ kv.2)) ∧
    (∀ (ls : List String) (nv k v : String),
      ((ls.filterMap parse_env_line).map Prod.fst).Nodup →
      (k, v) ∈ ls.filterMap parse_env_line → k ≠ "service_version" →
      (k ++ "=" ++ v) ∈ update_env_lines ls nv) := by
  constructor
  · intro ls nv h
    unfold update_env_lines
    rw [read_env_pairs_eq_filterMap ls h]
  · intro ls nv k v h hmem hne
    unfold update_env_lines
    rw [read_env_pairs_eq_filterMap ls h]
    exact List.mem_map_of_mem _ (dictInsert_mem_of_ne _ _ _ _ _ hmem hne)

/-- Witness for C5 on a two-line file: `foo=bar` survives the version
bump. -/
theorem claim_c5_update_preserves_witness :
    "foo" ++ "=" ++ "bar" ∈
      update_env_lines ["service_version=v1.2.3", "foo=bar"] "1.2.4" :=
  claim_c5_update_preserves.2 ["service_version=v1.2.3", "foo=bar"] "1.2.4"
    "foo" "bar" (by decide) (by decide) (by decide)

/-! ## Claim C9: decimal formatting and parsing lemmas -/

lemma char_ofNat_isDigit (k : Nat) (h : k < 10) :
    (Char.ofNat (48 + k)).isDigit = true := by
  interval_cases k <;> decide

lemma digitVal_char_ofNat (k : Nat) (h : k < 10) :
    digitVal (Char.ofNat (48 + k)) = k := by
  interval_cases k <;> decide

lemma isDigit_ne_v (c : Char) (h : c.isDigit = true) : c ≠ 'v' := by
  intro he
  subst he
  exact absurd h (by decide)

lemma isDigit_ne_dot (c : Char) (h : c.isDigit = true) : c ≠ '.' := by
  intro he
  subst he
  exact absurd h (by decide)

lemma natToCharsGo_append (fuel : Nat) : ∀ (n : Nat) (acc : List Char),
    n < 10 ^ fuel →
    natToCharsGo fuel n acc = natToCharsGo fuel n [] ++ acc := by
  induction fuel with
  | zero => intro n acc _; rfl
  | succ fuel ih =>
    intro n acc h
    by_cases hn : n < 10
    · simp [natToCharsGo, hn]
    · have hlt : n / 10 < 10 ^ fuel := by
        have h2 : n < 10 ^ fuel * 10 := by rw [← pow_succ]; exact h
        omega
      simp only [natToCharsGo, hn, if_false, ite_false]
      rw [ih (n / 10) (Char.ofNat (48 + n % 10) :: acc) hlt,
        ih (n / 10) [Char.ofNat (48 + n % 10)] hlt, List.append_assoc]
      rfl

lemma natToCharsGo_all_digits (fuel : Nat) : ∀ (n : Nat) (acc : List Char),
    (∀ c ∈ acc, c.isDigit = true) →
    ∀ c ∈ natToCharsGo fuel n acc, c.isDigit = true := by
  induction fuel with
  | zero => intro n acc hacc; exact hacc
  | succ fuel ih =>
    intro n acc hacc c hc
    by_cases hn : n < 10
    · simp only [natToCharsGo, hn, ite_true, if_true] at hc
      rcases List.mem_cons.mp hc with rfl | hmem
      · exact char_ofNat_isDigit n hn
      · exact hacc c hmem
    · simp only [natToCharsGo, hn, ite_false, if_false] at hc
      refine ih (n / 10) (Char.ofNat (48 + n % 10) :: acc) ?_ c hc
      intro d hd
      rcases List.mem_cons.mp hd with rfl | hmem
      · exact char_ofNat_isDigit (n % 10) (Nat.mod_lt n (by omega))
      · exact hacc d hmem

lemma natToChars_all_digits (n : Nat) :
    ∀ c ∈ natToChars n, c.isDigit = true :=
  natToCharsGo_all_digits (n + 1) n [] (by simp)

lemma natToCharsGo_ne_nil (fuel : Nat) : ∀ (n : Nat) (acc : List Char),
    acc ≠ [] → natToCharsGo fuel n acc ≠ [] := by
  induction fuel with
  | zero => intro n acc h; exact h
  | succ fuel ih =>
    intro n acc h
    by_cases hn : n < 10
    · simp [natToCharsGo, hn]
    · simp only [natToCharsGo, hn, ite_false, if_false]
      exact ih (n / 10) _ (by simp)

lemma natToChars_ne_nil (n : Nat) : natToChars n ≠ [] := by
  unfold natToChars
  by_cases hn : n < 10
  · simp [natToCharsGo, hn]
  · simp only [natToCharsGo, hn, ite_false, if_false]
    exact natToCharsGo_ne_nil n (n / 10) _ (by simp)

lemma lt_ten_pow (n : Nat) : n < 10 ^ (n + 1) :=
  lt_of_lt_of_le (Nat.lt_pow_self (by norm_num) n)
    (Nat.pow_le_pow_right (by norm_num) (Nat.le_succ n))

lemma natToCharsGo_foldl (fuel : Nat) : ∀ n : Nat, n < 10 ^ fuel →
    ∀ a : Nat,
      List.foldl (fun x c => x * 10 + digitVal c) a (natToCharsGo fuel n []) =
        a * 10 ^ (natToCharsGo fuel n []).length + n := by
  induction fuel with
  | zero =>
    intro n h a
    interval_cases n
    simp [natToCharsGo]
  | succ fuel ih =>
    intro n h a
    by_cases hn : n < 10
    · simp [natToCharsGo, hn, digitVal_char_ofNat n hn]
    · have hlt : n / 10 < 10 ^ fuel := by
        have h2 : n < 10 ^ fuel * 10 := by rw [← pow_succ]; exact h
        omega
      have hsplit : natToCharsGo (fuel + 1) n [] =
          natToCharsGo fuel (n / 10) [] ++ [Char.ofNat (48 + n % 10)] := by
        simp only [natToCharsGo, hn, ite_false, if_false]
        exact natToCharsGo_append fuel (n / 10) _ hlt
      rw [hsplit, List.foldl_append, List.length_append]
      rw [ih (n / 10) hlt a]
      simp only [List.foldl_cons, List.foldl_nil, List.length_cons,
        List.length_nil, Nat.zero_add]
      rw [digitVal_char_ofNat (n % 10) (Nat.mod_lt n (by omega))]
      rw [pow_succ, ← mul_assoc]
      omega

lemma digitsToNat_natToChars (n : Nat) :
    digitsToNat (natToChars n) = some n := by
  have hseg : isNumericSegment (natToChars n) = true := by
    unfold isNumericSegment
    rw [Bool.and_eq_true]
    constructor
    · obtain ⟨c, cs, hc⟩ := List.exists_cons_of_ne_nil (natToChars_ne_nil n)
      rw [hc]
      rfl
    · rw [List.all_eq_true]
      intro c hc
      exact natToChars_all_digits n c hc
  unfold digitsToNat
  rw [hseg]
  simp only [ite_true, if_true, Option.some.injEq]
  unfold natToChars
  rw [natToCharsGo_foldl (n + 1) n (lt_ten_pow n) 0]
  simp

lemma splitChar_no_sep (sep : Char) : ∀ a : List Char,
    (∀ c ∈ a, c ≠ sep) → splitChar sep a = [a] := by
  intro a
  induction a with
  | nil => intro _; rfl
  | cons c cs ih =>
    intro h
    have hc : ¬ c = sep := h c (List.mem_cons_self c cs)
    have hcs := ih (fun x hx => h x (List.mem_cons_of_mem _ hx))
    simp [splitChar, hc, hcs]

lemma splitChar_append_sep (sep : Char) : ∀ (a rest : List Char),
    (∀ c ∈ a, c ≠ sep) →
    splitChar sep (a ++ sep :: rest) = a :: splitChar sep rest := by
  intro a
  induction a with
  | nil => intro rest _; simp [splitChar]
  | cons c cs ih =>
    intro rest h
    have hc : ¬ c = sep := h c (List.mem_cons_self c cs)
    have hcs := ih rest (fun x hx => h x (List.mem_cons_of_mem _ hx))
    simp [splitChar, hc, hcs]

lemma splitChar_format (A B C : Nat) :
    splitChar '.'
        (natToChars A ++ '.' :: (natToChars B ++ '.' :: natToChars C)) =
      [natToChars A, natToChars B, natToChars C] := by
  rw [splitChar_append_sep '.' (natToChars A) _
    (fun c hc => isDigit_ne_dot c (natToChars_all_digits A c hc))]
  rw [splitChar_append_sep '.' (natToChars B) _
    (fun c hc => isDigit_ne_dot c (natToChars_all_digits B c hc))]
  rw [splitChar_no_sep '.' (natToChars C)
    (fun c hc => isDigit_ne_dot c (natToChars_all_digits C c hc))]

lemma stripVChars_format (A B C : Nat) :
    stripVChars (natToChars A ++ '.' :: (natToChars B ++ '.' :: natToChars C)) =
      natToChars A ++ '.' :: (natToChars B ++ '.' :: natToChars C) := by
  obtain ⟨c, cs, hc⟩ := List.exists_cons_of_ne_nil (natToChars_ne_nil A)
  have hcd : c.isDigit = true :=
    natToChars_all_digits A c (by rw [hc]; exact List.mem_cons_self c cs)
  have hcv : ¬ c = 'v' := isDigit_ne_v c hcd
  rw [hc]
  simp [stripVChars, hcv]

lemma stripVChars_v (l : List Char) : stripVChars ('v' :: l) = l := by
  simp [stripVChars]

lemma parseVersionChars_format (A B C : Nat) (l : List Char)
    (hstrip : stripVChars l =
      natToChars A ++ '.' :: (natToChars B ++ '.' :: natToChars C)) :
    parseVersionChars l = some ((A : Int), (B : Int), (C : Int)) := by
  unfold parseVersionChars
  rw [hstrip, splitChar_format A B C]
  simp [digitsToNat_natToChars]

/-- C9 (spec-modelled parser and the script's f-string formatting): the
parse/format round-trip holds for every non-negative triple, with and
without a leading `v`. -/
theorem claim_c9_roundtrip :
    ∀ M m p : Int, 0 ≤ M → 0 ≤ m → 0 ≤ p →
      parse_version (format_version (M, m, p)) = some (M, m, p) ∧
      parse_version ("v" ++ format_version (M, m, p)) = some (M, m, p) := by
  intro M m p hM hm hp
  have hfmt : format_version (M, m, p) =
      String.mk (natToChars M.toNat ++
        '.' :: (natToChars m.toNat ++ '.' :: natToChars p.toNat)) := by
    unfold format_version intToChars
    simp [not_lt.mpr hM, not_lt.mpr hm, not_lt.mpr hp]
  have hco : ((M.toNat : Int), (m.toNat : Int), (p.toNat : Int)) = (M, m, p) := by
    rw [Int.toNat_of_nonneg hM, Int.toNat_of_nonneg hm, Int.toNat_of_nonneg hp]
  constructor
  · rw [hfmt]
    show parseVersionChars (natToChars M.toNat ++
      '.' :: (natToChars m.toNat ++ '.' :: natToChars p.toNat)) = some (M, m, p)
    rw [parseVersionChars_format M.toNat m.toNat p.toNat _
      (stripVChars_format M.toNat m.toNat p.toNat), hco]
  · rw [hfmt]
    show parseVersionChars ('v' :: (natToChars M.toNat ++
      '.' :: (natToChars m.toNat ++ '.' :: natToChars p.toNat))) = some (M, m, p)
    rw [parseVersionChars_format M.toNat m.toNat p.toNat _
      (stripVChars_v _), hco]

/-- Witness for C9 at `(1, 2, 3)`. -/
theorem claim_c9_roundtrip_witness :
    parse_version (format_version (1, 2, 3)) = some (1, 2, 3) ∧
    parse_version ("v" ++ format_version (1, 2, 3)) = some (1, 2, 3) :=
  claim_c9_roundtrip 1 2 3 (by decide) (by decide) (by decide)

end Pyver

